import Mathlib

/-!
Verification of the generation event relay of the better-docs repository.

The development shallowly embeds:
  * the server-side relay tee and end-of-stream frame scan of
    `src/web/src/app/api/generate/route.ts` (the `TransformStream`'s
    `transform` and `flush` callbacks),
  * the client-side incremental SSE consumer of
    `src/web/src/app/dashboard/page.tsx` (`handleGenerate`'s read loop),
  * the slug derivation of `src/web/src/lib/storage.ts` (`slugify`,
    `saveDocs`) and the `repoName` derivation in the `POST` handler.

JavaScript strings are modelled as Lean `String`s; the JavaScript string
builtins used by the code (`startsWith`, `slice`, `trim`, `split`,
`replace` with a plain-string pattern, `toLowerCase`) are modelled as
executable functions over the underlying character lists.  `JSON.parse`
and the persistence gateway (`saveDocs`, which performs a database
upsert) are external to the relay logic and are passed as explicit
function parameters; `JSON.stringify` of the synthesized `saved` payload
is modelled concretely for the two-string-field object the code builds.
-/

namespace BetterDocs

/-! ## Models of the JavaScript string builtins -/

/-- JavaScript `s.startsWith(pre)`. -/
def jsStartsWith (s pre : String) : Bool :=
  pre.data.isPrefixOf s.data

/-- JavaScript `s.slice(n)` (drop the first `n` code units). -/
def jsSlice (s : String) (n : Nat) : String :=
  ⟨s.data.drop n⟩

/-- JavaScript `s.slice(0, n)` (take the first `n` code units). -/
def jsTake (s : String) (n : Nat) : String :=
  ⟨s.data.take n⟩

/-- Whitespace recognized by the model of `trim` (the protocol only ever
produces spaces, tabs and line breaks around the trimmed fields). -/
def isJsWs (c : Char) : Bool :=
  c == ' ' || c == '\t' || c == '\n' || c == '\r'

/-- JavaScript `s.trim()`. -/
def jsTrim (s : String) : String :=
  ⟨((s.data.dropWhile isJsWs).reverse.dropWhile isJsWs).reverse⟩

/-- Helper for `splitOnChar`: prepend a character to the first piece. -/
def consHead (c : Char) : List (List Char) → List (List Char)
  | [] => [[c]]
  | h :: t => (c :: h) :: t

/-- JavaScript `s.split(sep)` for a one-character separator, on the
underlying character list.  Like the JavaScript builtin it always
returns a non-empty list and keeps empty pieces. -/
def splitOnChar (sep : Char) : List Char → List (List Char)
  | [] => [[]]
  | c :: rest =>
    if c == sep then [] :: splitOnChar sep rest
    else consHead c (splitOnChar sep rest)

/-- JavaScript `s.replace(pat, "")` for a plain-string pattern: removes
the first occurrence of `pat`, anywhere in the string. -/
def replaceFirstChars (pat : List Char) : List Char → List Char
  | [] => []
  | c :: rest =>
    if pat.isPrefixOf (c :: rest) then List.drop pat.length (c :: rest)
    else c :: replaceFirstChars pat rest

/-- JavaScript `s.replace(pat, "")`. -/
def jsReplaceFirst (s pat : String) : String :=
  ⟨replaceFirstChars pat.data s.data⟩

/-- JavaScript string truthiness: a string is truthy iff it is non-empty. -/
def jsTruthyStr (s : String) : Bool :=
  !(s == "")

/-- JavaScript `x || d` for an optional string field (`""` is falsy). -/
def jsOrStr : Option String → String → String
  | some s, d => if s == "" then d else s
  | none, d => d

/-- JavaScript `x || d` for an optional numeric field (`0` is falsy). -/
def jsOrInt : Option Int → Int → Int
  | some n, d => if n == 0 then d else n
  | none, d => d

/-! ## Basic lemmas about the builtin models -/

theorem string_ext {s t : String} (h : s.data = t.data) : s = t := by
  cases s; cases t; cases h; rfl

theorem getLastD_of_ne_nil {α : Type} {l : List α} (h : l ≠ []) (d d' : α) :
    l.getLastD d = l.getLastD d' := by
  cases l with
  | nil => exact absurd rfl h
  | cons a t => simp only [List.getLastD_cons]

theorem splitOnChar_ne_nil (sep : Char) (l : List Char) :
    splitOnChar sep l ≠ [] := by
  cases l with
  | nil => simp [splitOnChar]
  | cons c rest =>
    simp only [splitOnChar]
    split
    · simp
    · cases h : splitOnChar sep rest <;> simp [consHead]

/-- The last piece produced by `splitOnChar` never contains the separator. -/
theorem splitOnChar_getLastD_not_mem (sep : Char) (l : List Char) :
    sep ∉ (splitOnChar sep l).getLastD [] := by
  induction l with
  | nil => simp [splitOnChar]
  | cons c rest ih =>
    simp only [splitOnChar]
    split
    · rw [List.getLastD_cons]
      exact ih
    · rename_i hc
      cases hsp : splitOnChar sep rest with
      | nil => exact absurd hsp (splitOnChar_ne_nil sep rest)
      | cons h t =>
        rw [hsp] at ih
        cases t with
        | nil =>
          simp only [consHead, List.getLastD_cons, List.getLastD_nil] at ih ⊢
          intro hmem
          rcases List.mem_cons.mp hmem with h1 | h2
          · exact hc (by simp [h1])
          · exact ih h2
        | cons b t2 =>
          simp only [consHead, List.getLastD_cons] at ih ⊢
          exact ih

/-- If the separator does not occur, `splitOnChar` returns the whole list. -/
theorem splitOnChar_of_not_mem {sep : Char} {l : List Char} (h : sep ∉ l) :
    splitOnChar sep l = [l] := by
  induction l with
  | nil => rfl
  | cons c rest ih =>
    simp only [splitOnChar]
    have hc : ¬(c == sep) = true := by
      simp only [beq_iff_eq]
      intro he; exact h (by simp [he])
    rw [if_neg hc, ih (fun hm => h (List.mem_cons_of_mem c hm))]
    rfl

/-- Merge helper describing how splitting distributes over append. -/
def mergeSplit (lx : List Char) : List (List Char) → List (List Char)
  | [] => [lx]
  | h :: t => (lx ++ h) :: t

theorem splitOnChar_append (sep : Char) (x y : List Char) :
    splitOnChar sep (x ++ y) =
      (splitOnChar sep x).dropLast ++
        mergeSplit ((splitOnChar sep x).getLastD []) (splitOnChar sep y) := by
  induction x with
  | nil =>
    cases h : splitOnChar sep y with
    | nil => exact absurd h (splitOnChar_ne_nil sep y)
    | cons hy ty => simp [splitOnChar, mergeSplit, h]
  | cons c x' ih =>
    by_cases hc : (c == sep) = true
    · have l1 : splitOnChar sep ((c :: x') ++ y) = [] :: splitOnChar sep (x' ++ y) := by
        simp [splitOnChar, hc]
      have l2 : splitOnChar sep (c :: x') = [] :: splitOnChar sep x' := by
        simp [splitOnChar, hc]
      rw [l1, l2, ih]
      cases hsp : splitOnChar sep x' with
      | nil => exact absurd hsp (splitOnChar_ne_nil sep x')
      | cons h t =>
        cases t with
        | nil =>
          simp only [List.dropLast_single, List.dropLast_cons₂, List.getLastD_cons,
            List.getLastD_nil, List.nil_append, List.cons_append]
        | cons b t2 =>
          simp only [List.dropLast_cons₂, List.getLastD_cons, List.cons_append]
    · have l1 : splitOnChar sep ((c :: x') ++ y) =
          consHead c (splitOnChar sep (x' ++ y)) := by
        simp [splitOnChar, hc]
      have l2 : splitOnChar sep (c :: x') = consHead c (splitOnChar sep x') := by
        simp [splitOnChar, hc]
      rw [l1, l2, ih]
      cases hsp : splitOnChar sep x' with
      | nil => exact absurd hsp (splitOnChar_ne_nil sep x')
      | cons h t =>
        cases t with
        | nil =>
          simp only [List.dropLast_single, List.getLastD_cons, List.getLastD_nil,
            List.nil_append]
          cases hsy : splitOnChar sep y with
          | nil => exact absurd hsy (splitOnChar_ne_nil sep y)
          | cons hy ty => simp [mergeSplit, consHead]
        | cons b t2 =>
          simp only [consHead, List.dropLast_cons₂, List.getLastD_cons, List.cons_append]

theorem getLastD_append_right {α : Type} (A : List α) {B : List α} (hB : B ≠ []) (d : α) :
    (A ++ B).getLastD d = B.getLastD d := by
  rw [List.getLastD_eq_getLast?, List.getLastD_eq_getLast?,
    List.getLast?_append_of_ne_nil A hB]

/-- Splitting a string whose head part is separator-free merges that part
into the first piece of the split of the tail. -/
theorem splitOnChar_append_no_sep {sep : Char} {x : List Char} (hx : sep ∉ x)
    (y : List Char) :
    splitOnChar sep (x ++ y) = mergeSplit x (splitOnChar sep y) := by
  rw [splitOnChar_append, splitOnChar_of_not_mem hx]
  simp [List.getLastD_cons]

/-- The last piece of a split is the text after the last separator. -/
theorem splitOnChar_getLastD_after_sep (sep : Char) (x : List Char) {y : List Char}
    (hy : sep ∉ y) :
    (splitOnChar sep (x ++ sep :: y)).getLastD [] = y := by
  have hstep : splitOnChar sep (sep :: y) = [[], y] := by
    simp [splitOnChar, splitOnChar_of_not_mem hy]
  rw [splitOnChar_append, hstep]
  have : mergeSplit ((splitOnChar sep x).getLastD []) [[], y] =
      [(splitOnChar sep x).getLastD [], y] := by
    simp [mergeSplit]
  rw [this, getLastD_append_right _ (by simp), List.getLastD_cons, List.getLastD_cons,
    List.getLastD_nil]

/-! ## Data model

`JVal` models the result of `JSON.parse` on an event payload: the handful
of fields the relay and the dashboard actually read, each optional.  The
opaque `docs` result object is modelled by a `String`; its only observed
property is presence (JavaScript object truthiness). -/

structure JVal where
  progress : Option Int
  message : Option String
  docs : Option String
  error : Option String
  slug : Option String
  repoName : Option String
deriving DecidableEq

/-- A `JVal` with only a `docs` field, used for concrete runs. -/
def jvalDocs (d : String) : JVal :=
  ⟨none, none, some d, none, none, none⟩

/-- One invocation of the persistence gateway `saveDocs(userId, repoUrl,
repoName, docs)`. -/
structure SaveCall where
  userId : String
  repoUrl : String
  repoName : String
  docs : String
deriving DecidableEq

/-- Extensional outcome of one relay lifetime: the ordered chunks written
to the outbound sink, and the gateway invocations that were made. -/
structure RelayResult where
  outbound : List String
  saveCalls : List SaveCall
deriving DecidableEq

/-- The synthesized `saved` frame, byte for byte:
`` `event: saved\ndata: ${JSON.stringify({ slug, repoName })}\n\n` ``
(`JSON.stringify` of the two-string-field object literal). -/
def savedEventStr (slug repoName : String) : String :=
  "event: saved\ndata: " ++
    "\x7b\"slug\":\"" ++ slug ++ "\",\"repoName\":\"" ++ repoName ++ "\"\x7d" ++
    "\n\n"

/-! ## Server-side relay (route.ts, `TransformStream`)

`flushLoop` embeds the `for (const line of lines)` loop of `flush`
(route.ts lines 62-79), with `JSON.parse` passed as `parse` (`none`
models a parse exception) and `saveDocs` passed as `save` (`Except.error`
models a rejected promise).  It returns the extra chunks enqueued by the
loop and the gateway calls made; an exception anywhere in the loop is
caught by the `try`/`catch` wrapping it, which abandons the scan keeping
the effects already performed. -/

def flushLoop (save : SaveCall → Except Unit String) (parse : String → Option JVal)
    (uid repoUrl repoName : String) : List String → String → List String × List SaveCall
  | [], _ => ([], [])
  | line :: rest, currentEvent =>
    if jsStartsWith line "event: " then
      flushLoop save parse uid repoUrl repoName rest (jsTrim (jsSlice line 7))
    else if jsStartsWith line "data: " && currentEvent == "done" then
      match parse (jsTrim (jsSlice line 6)) with
      | none => ([], [])
      | some parsed =>
        match parsed.docs with
        | none => ([], [])
        | some d =>
          match save ⟨uid, repoUrl, repoName, d⟩ with
          | Except.error _ => ([], [⟨uid, repoUrl, repoName, d⟩])
          | Except.ok slug => ([savedEventStr slug repoName], [⟨uid, repoUrl, repoName, d⟩])
    else if line == "" then
      flushLoop save parse uid repoUrl repoName rest
        (if currentEvent == "done" then currentEvent else "")
    else
      flushLoop save parse uid repoUrl repoName rest currentEvent

/-- The pure scanning skeleton of `flush`: the payload of the first
`data: ` line encountered while the tracked kind is `done`, if any.
`flushLoop_eq_scan` below proves it is the control path of `flushLoop`. -/
def scanFirstDone : List String → String → Option String
  | [], _ => none
  | line :: rest, currentEvent =>
    if jsStartsWith line "event: " then
      scanFirstDone rest (jsTrim (jsSlice line 7))
    else if jsStartsWith line "data: " && currentEvent == "done" then
      some (jsTrim (jsSlice line 6))
    else if line == "" then
      scanFirstDone rest (if currentEvent == "done" then currentEvent else "")
    else
      scanFirstDone rest currentEvent

/-- What `flush` does once the scan has (or has not) produced a terminal
payload: parse it, check the `docs` field, call the gateway, and on
success enqueue the synthesized `saved` frame. -/
def doneEffects (save : SaveCall → Except Unit String) (parse : String → Option JVal)
    (uid repoUrl repoName : String) : Option String → List String × List SaveCall
  | none => ([], [])
  | some p =>
    match parse p with
    | none => ([], [])
    | some parsed =>
      match parsed.docs with
      | none => ([], [])
      | some d =>
        match save ⟨uid, repoUrl, repoName, d⟩ with
        | Except.error _ => ([], [⟨uid, repoUrl, repoName, d⟩])
        | Except.ok slug => ([savedEventStr slug repoName], [⟨uid, repoUrl, repoName, d⟩])

theorem flushLoop_eq_scan (save : SaveCall → Except Unit String)
    (parse : String → Option JVal) (uid repoUrl repoName : String)
    (lines : List String) :
    ∀ currentEvent, flushLoop save parse uid repoUrl repoName lines currentEvent =
      doneEffects save parse uid repoUrl repoName (scanFirstDone lines currentEvent) := by
  induction lines with
  | nil => intro cur; rfl
  | cons line rest ih =>
    intro cur
    simp only [flushLoop, scanFirstDone]
    by_cases h1 : jsStartsWith line "event: " = true
    · simp [h1, ih]
    · simp only [h1, if_false, Bool.false_eq_true]
      by_cases h2 : (jsStartsWith line "data: " && cur == "done") = true
      · simp only [h2, if_true]
        rfl
      · simp only [h2, if_false, Bool.false_eq_true]
        by_cases h3 : (line == "") = true
        · simp [h3, ih]
        · simp [h3, ih]

/-- The `transform` callback (route.ts lines 46-54): forward the chunk,
and, when an owner identity is present, append its decoded text to the
accumulation buffer. -/
def transformStep (uid? : Option String) (acc : List String × String)
    (chunk : String) : List String × String :=
  (acc.1 ++ [chunk], match uid? with
    | some _ => acc.2 ++ chunk
    | none => acc.2)

/-- One full relay lifetime on a normally closing upstream: run
`transform` over every chunk in order, then `flush`, then close. -/
def runRelay (save : SaveCall → Except Unit String) (parse : String → Option JVal)
    (uid? : Option String) (repoUrl repoName : String)
    (chunks : List String) : RelayResult :=
  let acc := chunks.foldl (transformStep uid?) ([], "")
  match uid? with
  | none => ⟨acc.1, []⟩
  | some uid =>
    let fl := flushLoop save parse uid repoUrl repoName
      ((splitOnChar '\n' acc.2.data).map (fun l => (⟨l⟩ : String))) ""
    ⟨acc.1 ++ fl.1, fl.2⟩

/-- The line sequence the flush scan sees for a given chunk sequence. -/
def relayLines (chunks : List String) : List String :=
  (splitOnChar '\n' (String.join chunks).data).map (fun l => (⟨l⟩ : String))

theorem str_append_empty (a : String) : a ++ "" = a :=
  string_ext (by rw [String.data_append]; simp [String.data])

theorem str_empty_append (a : String) : "" ++ a = a :=
  string_ext (by rw [String.data_append]; simp [String.data])

theorem str_foldl_append (l : List String) (a : String) :
    l.foldl (fun r s => r ++ s) a = a ++ l.foldl (fun r s => r ++ s) "" := by
  induction l generalizing a with
  | nil => simp [str_append_empty]
  | cons x t ih =>
    simp only [List.foldl_cons]
    rw [ih (a ++ x), ih ("" ++ x), str_empty_append, String.append_assoc]

theorem join_cons (x : String) (l : List String) :
    String.join (x :: l) = x ++ String.join l := by
  simp only [String.join, List.foldl_cons]
  rw [str_foldl_append l ("" ++ x), str_empty_append]

theorem transform_fold (uid? : Option String) (chunks : List String)
    (out0 : List String) (buf0 : String) :
    chunks.foldl (transformStep uid?) (out0, buf0) =
      (out0 ++ chunks,
        match uid? with
        | some _ => buf0 ++ String.join chunks
        | none => buf0) := by
  induction chunks generalizing out0 buf0 with
  | nil => cases uid? <;> simp [str_append_empty, String.join]
  | cons c t ih =>
    simp only [List.foldl_cons, transformStep]
    cases uid? with
    | none =>
      rw [ih]
      simp
    | some u =>
      rw [ih]
      simp [join_cons, String.append_assoc]

theorem runRelay_none (save : SaveCall → Except Unit String)
    (parse : String → Option JVal) (repoUrl repoName : String)
    (chunks : List String) :
    runRelay save parse none repoUrl repoName chunks = ⟨chunks, []⟩ := by
  simp [runRelay, transform_fold]

theorem runRelay_some (save : SaveCall → Except Unit String)
    (parse : String → Option JVal) (uid repoUrl repoName : String)
    (chunks : List String) :
    runRelay save parse (some uid) repoUrl repoName chunks =
      ⟨chunks ++ (flushLoop save parse uid repoUrl repoName (relayLines chunks) "").1,
        (flushLoop save parse uid repoUrl repoName (relayLines chunks) "").2⟩ := by
  simp [runRelay, transform_fold, relayLines, str_empty_append]

theorem doneEffects_fst_shape (save : SaveCall → Except Unit String)
    (parse : String → Option JVal) (uid repoUrl repoName : String)
    (o : Option String) :
    (doneEffects save parse uid repoUrl repoName o).1 = [] ∨
      ∃ slug, (doneEffects save parse uid repoUrl repoName o).1 =
        [savedEventStr slug repoName] := by
  cases o with
  | none => exact Or.inl rfl
  | some p =>
    simp only [doneEffects]
    split
    · exact Or.inl rfl
    · split
      · exact Or.inl rfl
      · split
        · exact Or.inl rfl
        · rename_i slug _
          exact Or.inr ⟨slug, rfl⟩

theorem doneEffects_calls_len (save : SaveCall → Except Unit String)
    (parse : String → Option JVal) (uid repoUrl repoName : String)
    (o : Option String) :
    (doneEffects save parse uid repoUrl repoName o).2.length ≤ 1 := by
  cases o with
  | none => simp [doneEffects]
  | some p =>
    simp only [doneEffects]
    split
    · simp
    · split
      · simp
      · split
        · simp
        · simp

theorem doneEffects_save_error (save : SaveCall → Except Unit String)
    (parse : String → Option JVal) (uid repoUrl repoName : String)
    (o : Option String) (herr : ∀ c, save c = Except.error ()) :
    (doneEffects save parse uid repoUrl repoName o).1 = [] := by
  cases o with
  | none => rfl
  | some p =>
    simp only [doneEffects]
    split
    · rfl
    · split
      · rfl
      · rename_i parsed d hd
        rw [herr ⟨uid, repoUrl, repoName, d⟩]

/-- Modelled from the spec: the identity stream transformer — every
upstream chunk is forwarded unchanged and in order, nothing else is
written, and no persistence call is made. -/
def specIdentityTransformer (chunks : List String) : RelayResult :=
  ⟨chunks, []⟩

/-- A line with the `data: ` marker cannot also carry the `event: ` marker. -/
theorem data_not_event (l : String) (h : jsStartsWith l "data: " = true) :
    jsStartsWith l "event: " = false := by
  unfold jsStartsWith at h ⊢
  generalize hld : l.data = ld at h ⊢
  cases ld with
  | nil =>
    simp [List.isPrefixOf] at h
  | cons c t =>
    have h1 : ('d' == c) = true := by
      have hdl : "data: ".data = 'd' :: ['a', 't', 'a', ':', ' '] := rfl
      rw [hdl] at h
      simp only [List.isPrefixOf, Bool.and_eq_true] at h
      exact h.1
    have hc : 'd' = c := beq_iff_eq.mp h1
    rw [← hc]
    have hel : "event: ".data = 'e' :: ['v', 'e', 'n', 't', ':', ' '] := rfl
    rw [hel]
    simp [List.isPrefixOf]

/-- The upstream wire format for one frame:
`event: <kind>\ndata: <json-payload>\n\n`. -/
def encodeFrame (kind payload : String) : String :=
  "event: " ++ kind ++ "\ndata: " ++ payload ++ "\n\n"

/-- Claim C4: given the accumulated text split into lines, the batch
Frame Observer tracks the kind declared by `event: ` lines (prefix
stripped, trimmed); on the first `data: ` line while the tracked kind is
`done` it returns the prefix-stripped, trimmed remainder and scans no
further (the result is independent of the remaining lines); and a blank
line resets the tracked kind to empty unless it was `done`, which is
retained. -/
theorem batch_observer_scan_rules (line : String) (rest : List String) (cur : String) :
    (jsStartsWith line "event: " = true →
      scanFirstDone (line :: rest) cur = scanFirstDone rest (jsTrim (jsSlice line 7)))
    ∧ (jsStartsWith line "data: " = true →
      scanFirstDone (line :: rest) "done" = some (jsTrim (jsSlice line 6)))
    ∧ scanFirstDone ("" :: rest) cur =
        scanFirstDone rest (if cur == "done" then cur else "") := by
  refine ⟨fun h => ?_, fun h => ?_, ?_⟩
  · simp [scanFirstDone, h]
  · have he := data_not_event line h
    simp [scanFirstDone, he, h]
  · have h1 : jsStartsWith "" "event: " = false := by decide
    have h2 : jsStartsWith "" "data: " = false := by decide
    simp [scanFirstDone, h1, h2]

theorem batch_observer_scan_rules_witness :
    scanFirstDone ["event: done"] "" = scanFirstDone [] (jsTrim (jsSlice "event: done" 7))
    ∧ scanFirstDone ["data: P", "JUNK"] "done" = some (jsTrim (jsSlice "data: P" 6))
    ∧ scanFirstDone ("" :: ["data: X"]) "done" =
        scanFirstDone ["data: X"] (if "done" == "done" then "done" else "") :=
  ⟨(batch_observer_scan_rules "event: done" [] "").1 (by decide),
    (batch_observer_scan_rules "data: P" ["JUNK"] "done").2.1 (by decide),
    (batch_observer_scan_rules "data: P" ["data: X"] "done").2.2⟩

/-- Claim C1: for every relay run, the outbound sequence is exactly the
upstream chunks, in order and unmodified, followed by at most one
synthesized `saved` frame, which is appended only after every upstream
chunk (at stream close). -/
theorem relay_tee_forwards_exactly (save : SaveCall → Except Unit String)
    (parse : String → Option JVal) (uid? : Option String)
    (repoUrl repoName : String) (chunks : List String) :
    ∃ extra, (runRelay save parse uid? repoUrl repoName chunks).outbound = chunks ++ extra
      ∧ (extra = [] ∨ ∃ slug, extra = [savedEventStr slug repoName]) := by
  cases uid? with
  | none =>
    refine ⟨[], ?_, Or.inl rfl⟩
    rw [runRelay_none]
    simp
  | some uid =>
    refine ⟨(flushLoop save parse uid repoUrl repoName (relayLines chunks) "").1, ?_, ?_⟩
    · rw [runRelay_some]
    · rw [flushLoop_eq_scan]
      exact doneEffects_fst_shape save parse uid repoUrl repoName _

/-- Claim C3: with no owner identity, the relay is the identity stream
transformer — outbound bytes identical to upstream, no gateway call, no
appended frame. -/
theorem relay_passthrough_identity (save : SaveCall → Except Unit String)
    (parse : String → Option JVal) (repoUrl repoName : String)
    (chunks : List String) :
    runRelay save parse none repoUrl repoName chunks = specIdentityTransformer chunks :=
  runRelay_none save parse repoUrl repoName chunks

/-- Claim C6: when the persistence gateway raises, the failure is
contained by the `try`/`catch` in `flush`: the outbound sequence is
exactly the forwarded upstream chunks — the client still receives every
forwarded frame, and neither a `saved` frame nor any synthesized error
frame is written — and the flush completes, so the sink still closes. -/
theorem gateway_failure_contained (save : SaveCall → Except Unit String)
    (parse : String → Option JVal) (uid repoUrl repoName : String)
    (chunks : List String) (herr : ∀ c, save c = Except.error ()) :
    (runRelay save parse (some uid) repoUrl repoName chunks).outbound = chunks := by
  rw [runRelay_some]
  have h := doneEffects_save_error save parse uid repoUrl repoName
    (scanFirstDone (relayLines chunks) "") herr
  rw [flushLoop_eq_scan, h]
  simp

theorem gateway_failure_contained_witness :
    (runRelay (fun _ => Except.error ()) (fun _ => some (jvalDocs "D6")) (some "u6")
      "r6" "n6" ["event: done\ndata: G6\n\n"]).outbound =
      ["event: done\ndata: G6\n\n"] :=
  gateway_failure_contained _ _ _ _ _ _ (fun _ => rfl)

/-- Gateway and parse oracle for the run refuting claims C2 and C5:
a malformed `done` frame precedes a well-formed one. -/
def cex2Save : SaveCall → Except Unit String := fun _ => Except.ok "slug2"

def cex2Parse : String → Option JVal := fun s =>
  if s == "OK2" then some (jvalDocs "D2") else none

def cex2Chunks : List String :=
  ["event: done\ndata: XX2\n\nevent: done\ndata: OK2\n\n"]

/-- Counterexample to claim C2 as stated: the owner is present and
upstream emits a `done` frame (`data: OK2`) whose payload parses with a
`docs` field, yet the relay makes zero gateway calls and appends no
`saved` frame, because the scan hits the earlier malformed `done` frame
first and the parse exception aborts the whole scan. -/
theorem single_fire_claim_counterexample :
    String.join cex2Chunks =
      String.join ([("done", "XX2"), ("done", "OK2")].map (fun f => encodeFrame f.1 f.2))
    ∧ ("done", "OK2") ∈ [("done", "XX2"), ("done", "OK2")]
    ∧ cex2Parse "OK2" = some (jvalDocs "D2")
    ∧ (jvalDocs "D2").docs = some "D2"
    ∧ (runRelay cex2Save cex2Parse (some "user2") "u2" "r2" cex2Chunks).saveCalls = []
    ∧ (runRelay cex2Save cex2Parse (some "user2") "u2" "r2" cex2Chunks).outbound =
        cex2Chunks := by
  decide

/-- Claim C2 as amended: at most one gateway call is ever made per relay
lifetime; and when the owner is present, the first `done`-kind data line
reached by the scan parses to a payload with a `docs` field, and the
gateway call succeeds, then exactly one gateway call occurs and exactly
one `saved` frame — with the `{slug, repoName}` payload — is appended
after all upstream chunks. -/
theorem relay_single_fire_amended (save : SaveCall → Except Unit String)
    (parse : String → Option JVal) (uid? : Option String)
    (uid repoUrl repoName : String) (chunks : List String)
    (p : String) (v : JVal) (d slug : String) :
    (runRelay save parse uid? repoUrl repoName chunks).saveCalls.length ≤ 1
    ∧ (scanFirstDone (relayLines chunks) "" = some p →
        parse p = some v → v.docs = some d →
        save ⟨uid, repoUrl, repoName, d⟩ = Except.ok slug →
        (runRelay save parse (some uid) repoUrl repoName chunks).saveCalls =
          [⟨uid, repoUrl, repoName, d⟩]
        ∧ (runRelay save parse (some uid) repoUrl repoName chunks).outbound =
            chunks ++ [savedEventStr slug repoName]) := by
  constructor
  · cases uid? with
    | none =>
      rw [runRelay_none]
      simp
    | some u =>
      rw [runRelay_some]
      simp only
      rw [flushLoop_eq_scan]
      exact doneEffects_calls_len save parse u repoUrl repoName _
  · intro hscan hparse hdocs hsave
    have hfl : flushLoop save parse uid repoUrl repoName (relayLines chunks) "" =
        ([savedEventStr slug repoName], [⟨uid, repoUrl, repoName, d⟩]) := by
      rw [flushLoop_eq_scan, hscan]
      simp [doneEffects, hparse, hdocs, hsave]
    exact ⟨by rw [runRelay_some, hfl], by rw [runRelay_some, hfl]⟩

/-- Oracles for the witness run of the amended C2: one well-formed
`done` frame, a succeeding gateway. -/
def wSave : SaveCall → Except Unit String := fun _ => Except.ok "slugw"

def wParse : String → Option JVal := fun s =>
  if s == "GW" then some (jvalDocs "DW") else none

theorem relay_single_fire_amended_witness :
    (runRelay wSave wParse (some "uw") "rw" "nw" ["event: done\ndata: GW\n\n"]).saveCalls =
      [⟨"uw", "rw", "nw", "DW"⟩]
    ∧ (runRelay wSave wParse (some "uw") "rw" "nw" ["event: done\ndata: GW\n\n"]).outbound =
        ["event: done\ndata: GW\n\n"] ++ [savedEventStr "slugw" "nw"] :=
  (relay_single_fire_amended wSave wParse (some "uw") "uw" "rw" "nw"
    ["event: done\ndata: GW\n\n"] "GW" (jvalDocs "DW") "DW" "slugw").2
    (by decide) (by decide) (by decide) rfl

/-- Oracles and chunks for the run refuting claim C5: again a malformed
`done` payload ahead of a parseable one, this time split across two
chunks. -/
def cex5Save : SaveCall → Except Unit String := fun _ => Except.ok "slug5"

def cex5Parse : String → Option JVal := fun s =>
  if s == "OK5" then some (jvalDocs "D5") else none

def cex5Chunks : List String :=
  ["event: done\ndata: XX5\n\n", "event: done\ndata: OK5\n\n"]

/-- Counterexample to claim C5 as stated: a decode failure is not
"skipped with scanning continuing" — the accumulated text contains a
later `done` frame with a parseable payload (`OK5`), yet nothing is
persisted, because the exception from the first `done` payload aborts
the scan. -/
theorem decode_failure_claim_counterexample :
    String.join cex5Chunks =
      String.join ([("done", "XX5"), ("done", "OK5")].map (fun f => encodeFrame f.1 f.2))
    ∧ ("done", "OK5") ∈ [("done", "XX5"), ("done", "OK5")]
    ∧ cex5Parse "OK5" = some (jvalDocs "D5")
    ∧ cex5Parse "XX5" = none
    ∧ (runRelay cex5Save cex5Parse (some "user5") "u5" "r5" cex5Chunks).saveCalls = [] := by
  decide

/-- Claim C5 as amended: a decode failure is fatal to the scan but not
to the relay — if the first `done`-kind data line reached by the scan
has an unparseable payload, or no such line exists at all, nothing is
persisted and no frame is appended, while every upstream chunk is still
forwarded unchanged. -/
theorem decode_failure_scan_abort (save : SaveCall → Except Unit String)
    (parse : String → Option JVal) (uid repoUrl repoName : String)
    (chunks : List String) (p : String) :
    (scanFirstDone (relayLines chunks) "" = some p → parse p = none →
      (runRelay save parse (some uid) repoUrl repoName chunks).saveCalls = []
      ∧ (runRelay save parse (some uid) repoUrl repoName chunks).outbound = chunks)
    ∧ (scanFirstDone (relayLines chunks) "" = none →
      (runRelay save parse (some uid) repoUrl repoName chunks).saveCalls = []
      ∧ (runRelay save parse (some uid) repoUrl repoName chunks).outbound = chunks) := by
  constructor
  · intro hscan hparse
    have hfl : flushLoop save parse uid repoUrl repoName (relayLines chunks) "" =
        ([], []) := by
      rw [flushLoop_eq_scan, hscan]
      simp [doneEffects, hparse]
    exact ⟨by rw [runRelay_some, hfl], by rw [runRelay_some, hfl]; simp⟩
  · intro hscan
    have hfl : flushLoop save parse uid repoUrl repoName (relayLines chunks) "" =
        ([], []) := by
      rw [flushLoop_eq_scan, hscan]
      rfl
    exact ⟨by rw [runRelay_some, hfl], by rw [runRelay_some, hfl]; simp⟩

theorem decode_failure_scan_abort_witness :
    ((runRelay cex5Save cex5Parse (some "user5") "u5" "r5" cex5Chunks).saveCalls = []
      ∧ (runRelay cex5Save cex5Parse (some "user5") "u5" "r5" cex5Chunks).outbound =
          cex5Chunks)
    ∧ ((runRelay cex5Save cex5Parse (some "u5b") "u5b" "r5b"
          ["event: progress\ndata: P5\n\n"]).saveCalls = []
      ∧ (runRelay cex5Save cex5Parse (some "u5b") "u5b" "r5b"
          ["event: progress\ndata: P5\n\n"]).outbound =
          ["event: progress\ndata: P5\n\n"]) :=
  ⟨(decode_failure_scan_abort cex5Save cex5Parse "user5" "u5" "r5" cex5Chunks "XX5").1
      (by decide) (by decide),
    (decode_failure_scan_abort cex5Save cex5Parse "u5b" "u5b" "r5b"
      ["event: progress\ndata: P5\n\n"] "q").2 (by decide)⟩

/-! ## Client-side stream consumer (dashboard/page.tsx, `handleGenerate`)

The UI state collects the effects of the dispatched frames: the React
state setters `setProgress`, `setProgressMessage`, `setDocs`, `setError`,
`setCurrentSlug`, `setCurrentRepoName`, and the `refreshHistory()` calls
(counted).  `dispatched` records each frame closed by a blank line, in
dispatch order. -/

structure UIState where
  progress : Int
  progressMessage : String
  docs : Option String
  error : Option String
  currentSlug : Option String
  currentRepoName : Option String
  historyRefreshes : Nat
deriving DecidableEq

/-- The dispatch body guarded by `if (currentEvent && currentData)`
(page.tsx lines 116-141): parse the payload, switch on the kind; a parse
exception is swallowed (`catch` with an empty body). -/
def dispatchFrame (parse : String → Option JVal) (ui : UIState)
    (ev dstr : String) : UIState :=
  match parse dstr with
  | none => ui
  | some parsed =>
    if ev == "progress" then
      { ui with progress := jsOrInt parsed.progress 0,
                progressMessage := jsOrStr parsed.message "" }
    else if ev == "done" then
      match parsed.docs with
      | some d =>
        { ui with docs := some d, progress := 100, progressMessage := "Done!",
                  historyRefreshes := ui.historyRefreshes + 1 }
      | none => { ui with error := some "No docs returned" }
    else if ev == "saved" then
      let ui1 := match parsed.slug with
        | some s => if s == "" then ui else { ui with currentSlug := some s }
        | none => ui
      match parsed.repoName with
      | some r => if r == "" then ui1 else { ui1 with currentRepoName := some r }
      | none => ui1
    else if ev == "error" then
      { ui with error := some (jsOrStr parsed.error "Generation failed") }
    else ui

/-- Decoder state carried across reads: the pending `event:` kind and
`data:` payload, plus the accumulated UI effects and dispatch trace. -/
structure SSEState where
  currentEvent : String
  currentData : String
  ui : UIState
  dispatched : List (String × String)
deriving DecidableEq

/-- Processing of one complete line (page.tsx lines 109-145). -/
def stepLine (parse : String → Option JVal) (st : SSEState) (line : String) : SSEState :=
  if jsStartsWith line "event: " then
    { st with currentEvent := jsTrim (jsSlice line 7) }
  else if jsStartsWith line "data: " then
    { st with currentData := jsTrim (jsSlice line 6) }
  else if line == "" then
    let st1 :=
      if jsTruthyStr st.currentEvent && jsTruthyStr st.currentData then
        { st with ui := dispatchFrame parse st.ui st.currentEvent st.currentData,
                  dispatched := st.dispatched ++ [(st.currentEvent, st.currentData)] }
      else st
    { st1 with currentEvent := "", currentData := "" }
  else st

/-- Consumer state: the partial-line buffer plus the decoder state. -/
structure ClientState where
  buffer : String
  inner : SSEState
deriving DecidableEq

/-- One `reader.read()` iteration (page.tsx lines 101-147): append the
decoded chunk to the buffer, split on line breaks, keep the final
(possibly incomplete) line buffered, and process the complete lines. -/
def feedChunk (parse : String → Option JVal) (c : ClientState) (chunk : String) :
    ClientState :=
  let parts := splitOnChar '\n' (c.buffer.data ++ chunk.data)
  ⟨⟨parts.getLastD []⟩,
    (parts.dropLast).foldl (fun st l => stepLine parse st ⟨l⟩) c.inner⟩

def feedChunks (parse : String → Option JVal) (c : ClientState)
    (chunks : List String) : ClientState :=
  chunks.foldl (feedChunk parse) c

/-- Consumer state at the start of the read loop. -/
def initClient : ClientState :=
  ⟨"", ⟨"", "", ⟨0, "Starting...", none, none, none, none, 0⟩, []⟩⟩

theorem mergeSplit_ne_nil (lx : List Char) (s : List (List Char)) :
    mergeSplit lx s ≠ [] := by
  cases s <;> simp [mergeSplit]

theorem buffer_no_nl (parse : String → Option JVal) (c : ClientState) (x : String) :
    '\n' ∉ (feedChunk parse c x).buffer.data :=
  splitOnChar_getLastD_not_mem '\n' (c.buffer.data ++ x.data)

theorem feedChunk_empty (parse : String → Option JVal) {c : ClientState}
    (h : '\n' ∉ c.buffer.data) : feedChunk parse c "" = c := by
  obtain ⟨buf, inner⟩ := c
  obtain ⟨bd⟩ := buf
  have h' : '\n' ∉ bd := h
  simp only [feedChunk]
  rw [List.append_nil, splitOnChar_of_not_mem h']
  simp [List.getLastD_cons]

theorem feedChunk_append (parse : String → Option JVal) (c : ClientState)
    (a b : String) :
    feedChunk parse (feedChunk parse c a) b = feedChunk parse c (a ++ b) := by
  simp only [feedChunk]
  have hlast : '\n' ∉ (splitOnChar '\n' (c.buffer.data ++ a.data)).getLastD [] :=
    splitOnChar_getLastD_not_mem '\n' (c.buffer.data ++ a.data)
  have h1 : splitOnChar '\n'
      ((splitOnChar '\n' (c.buffer.data ++ a.data)).getLastD [] ++ b.data) =
      mergeSplit ((splitOnChar '\n' (c.buffer.data ++ a.data)).getLastD [])
        (splitOnChar '\n' b.data) :=
    splitOnChar_append_no_sep hlast b.data
  have h2 : splitOnChar '\n' (c.buffer.data ++ (a ++ b).data) =
      (splitOnChar '\n' (c.buffer.data ++ a.data)).dropLast ++
        mergeSplit ((splitOnChar '\n' (c.buffer.data ++ a.data)).getLastD [])
          (splitOnChar '\n' b.data) := by
    rw [String.data_append, ← List.append_assoc]
    exact splitOnChar_append '\n' (c.buffer.data ++ a.data) b.data
  rw [h1, h2]
  have hm := mergeSplit_ne_nil
    ((splitOnChar '\n' (c.buffer.data ++ a.data)).getLastD [])
    (splitOnChar '\n' b.data)
  rw [getLastD_append_right _ hm, List.dropLast_append_of_ne_nil _ hm,
    List.foldl_append]

/-- Claim C7: for every partition of a text into chunks, the client
Stream Consumer reaches exactly the same state — same dispatched frame
sequence, same UI state, same leftover buffer — as when the whole text
arrives in a single chunk, for every payload parser. -/
theorem stream_consumer_chunk_invariance (parse : String → Option JVal)
    (chunks : List String) :
    feedChunks parse initClient chunks = feedChunk parse initClient (String.join chunks) := by
  suffices h : ∀ c : ClientState, '\n' ∉ c.buffer.data →
      feedChunks parse c chunks = feedChunk parse c (String.join chunks) by
    exact h initClient (by simp [initClient])
  induction chunks with
  | nil =>
    intro c hc
    exact (feedChunk_empty parse hc).symm
  | cons x t ih =>
    intro c hc
    have h1 : feedChunks parse c (x :: t) = feedChunks parse (feedChunk parse c x) t := rfl
    rw [h1, ih (feedChunk parse c x) (buffer_no_nl parse c x), feedChunk_append,
      join_cons]

/-- Claim C8: per complete line, `event: X` sets the pending kind,
`data: Y` captures the payload, and a blank line closes the frame —
dispatching by kind when both are present (progress updates the
percentage and message, `done` stores the docs and marks progress
complete, `saved` records the slug, `error` records a failure message) —
and then clears the pending kind and data unconditionally, with no
special-casing of `done`; an unparseable payload is dropped silently and
decoding continues. -/
theorem client_dispatch_rules (parse : String → Option JVal) (st : SSEState)
    (line : String) (ui : UIState) (ev dstr : String) (v : JVal) (d s r : String) :
    (jsStartsWith line "event: " = true →
      stepLine parse st line = { st with currentEvent := jsTrim (jsSlice line 7) })
    ∧ (jsStartsWith line "data: " = true →
      stepLine parse st line = { st with currentData := jsTrim (jsSlice line 6) })
    ∧ ((jsTruthyStr st.currentEvent && jsTruthyStr st.currentData) = true →
      stepLine parse st "" =
        ⟨"", "", dispatchFrame parse st.ui st.currentEvent st.currentData,
          st.dispatched ++ [(st.currentEvent, st.currentData)]⟩)
    ∧ ((stepLine parse st "").currentEvent = "" ∧ (stepLine parse st "").currentData = "")
    ∧ (parse dstr = none → dispatchFrame parse ui ev dstr = ui)
    ∧ (parse dstr = some v →
      dispatchFrame parse ui "progress" dstr =
        { ui with progress := jsOrInt v.progress 0, progressMessage := jsOrStr v.message "" })
    ∧ (parse dstr = some v → v.docs = some d →
      dispatchFrame parse ui "done" dstr =
        { ui with docs := some d, progress := 100, progressMessage := "Done!",
                  historyRefreshes := ui.historyRefreshes + 1 })
    ∧ (parse dstr = some v → v.docs = none →
      dispatchFrame parse ui "done" dstr = { ui with error := some "No docs returned" })
    ∧ (parse dstr = some v → v.slug = some s → ¬s = "" → v.repoName = some r → ¬r = "" →
      dispatchFrame parse ui "saved" dstr =
        { ui with currentSlug := some s, currentRepoName := some r })
    ∧ (parse dstr = some v →
      dispatchFrame parse ui "error" dstr =
        { ui with error := some (jsOrStr v.error "Generation failed") }) := by
  have hbe : jsStartsWith "" "event: " = false := by decide
  have hbd : jsStartsWith "" "data: " = false := by decide
  refine ⟨fun h => ?_, fun h => ?_, fun h => ?_, ?_, fun h => ?_, fun h => ?_,
    fun h hd => ?_, fun h hd => ?_, fun h hs hsne hr hrne => ?_, fun h => ?_⟩
  · simp [stepLine, h]
  · simp [stepLine, h, data_not_event line h]
  · simp [stepLine, hbe, hbd, h]
  · by_cases hg : (jsTruthyStr st.currentEvent && jsTruthyStr st.currentData) = true <;>
      simp [stepLine, hbe, hbd, hg]
  · simp [dispatchFrame, h]
  · simp [dispatchFrame, h]
  · simp [dispatchFrame, h, hd]
  · simp [dispatchFrame, h, hd]
  · have hs' : (s == "") = false := by simp [hsne]
    have hr' : (r == "") = false := by simp [hrne]
    simp [dispatchFrame, h, hs, hs', hr, hr']
  · simp [dispatchFrame, h]

/-- Payload parser used by the witness runs of the client dispatch
rules: one fully populated payload, one empty payload, everything else
unparseable. -/
def w8Parse : String → Option JVal := fun s =>
  if s == "P8" then some ⟨some 5, some "m8", some "D8", some "E8", some "S8", some "R8"⟩
  else if s == "N8" then some ⟨none, none, none, none, none, none⟩
  else none

def w8UI : UIState := ⟨0, "", none, none, none, none, 0⟩

def w8St : SSEState := ⟨"done", "P8", w8UI, []⟩

theorem client_dispatch_rules_witness :
    stepLine w8Parse w8St "event: saved" =
      { w8St with currentEvent := jsTrim (jsSlice "event: saved" 7) }
    ∧ stepLine w8Parse w8St "data: Y8" =
      { w8St with currentData := jsTrim (jsSlice "data: Y8" 6) }
    ∧ stepLine w8Parse w8St "" =
      ⟨"", "", dispatchFrame w8Parse w8UI "done" "P8", [("done", "P8")]⟩
    ∧ dispatchFrame w8Parse w8UI "done" "BAD8" = w8UI
    ∧ dispatchFrame w8Parse w8UI "progress" "P8" =
      { w8UI with progress := jsOrInt (some 5) 0, progressMessage := jsOrStr (some "m8") "" }
    ∧ dispatchFrame w8Parse w8UI "done" "P8" =
      { w8UI with docs := some "D8", progress := 100, progressMessage := "Done!",
                  historyRefreshes := w8UI.historyRefreshes + 1 }
    ∧ dispatchFrame w8Parse w8UI "done" "N8" = { w8UI with error := some "No docs returned" }
    ∧ dispatchFrame w8Parse w8UI "saved" "P8" =
      { w8UI with currentSlug := some "S8", currentRepoName := some "R8" }
    ∧ dispatchFrame w8Parse w8UI "error" "P8" =
      { w8UI with error := some (jsOrStr (some "E8") "Generation failed") } := by
  have hA := client_dispatch_rules w8Parse w8St "event: saved" w8UI "done" "P8"
    ⟨some 5, some "m8", some "D8", some "E8", some "S8", some "R8"⟩ "D8" "S8" "R8"
  have hB := client_dispatch_rules w8Parse w8St "data: Y8" w8UI "done" "N8"
    ⟨none, none, none, none, none, none⟩ "D8" "S8" "R8"
  have hC := client_dispatch_rules w8Parse w8St "x" w8UI "done" "BAD8"
    ⟨none, none, none, none, none, none⟩ "D8" "S8" "R8"
  exact ⟨hA.1 (by decide),
    hB.2.1 (by decide),
    hA.2.2.1 (by decide),
    hC.2.2.2.2.1 (by decide),
    hA.2.2.2.2.2.1 (by decide),
    hA.2.2.2.2.2.2.1 (by decide) (by decide),
    hB.2.2.2.2.2.2.2.1 (by decide) (by decide),
    hA.2.2.2.2.2.2.2.2.1 (by decide) (by decide) (by decide) (by decide) (by decide),
    hA.2.2.2.2.2.2.2.2.2 (by decide)⟩

/-- Claim C10: a blank line with either the pending kind or the pending
payload missing dispatches nothing — the UI state and the dispatch trace
are untouched — yet both pending fields are still reset. -/
theorem client_incomplete_frame_discarded (parse : String → Option JVal)
    (st : SSEState) (h : st.currentEvent = "" ∨ st.currentData = "") :
    stepLine parse st "" = { st with currentEvent := "", currentData := "" } := by
  have hbe : jsStartsWith "" "event: " = false := by decide
  have hbd : jsStartsWith "" "data: " = false := by decide
  have hg : (jsTruthyStr st.currentEvent && jsTruthyStr st.currentData) = false := by
    rcases h with h | h <;> simp [jsTruthyStr, h]
  simp [stepLine, hbe, hbd, hg]

theorem client_incomplete_frame_discarded_witness :
    stepLine w8Parse ⟨"done", "", w8UI, []⟩ "" = ⟨"", "", w8UI, []⟩ :=
  client_incomplete_frame_discarded w8Parse ⟨"done", "", w8UI, []⟩ (Or.inr rfl)

/-! ## Slug and repo-name derivation (route.ts line 35, storage.ts) -/

/-- `repoName` derivation in the `POST` handler:
`body.repo_url?.split("/").pop()?.replace(".git", "") || "unknown"`. -/
def deriveRepoName : Option String → String
  | none => "unknown"
  | some u =>
    if jsReplaceFirst (⟨(splitOnChar '/' u.data).getLastD []⟩ : String) ".git" == ""
    then "unknown"
    else jsReplaceFirst (⟨(splitOnChar '/' u.data).getLastD []⟩ : String) ".git"

/-- A character kept verbatim by `slugify`'s `[^a-z0-9]+` replacement. -/
def isSlugKeep (c : Char) : Bool :=
  ('a' ≤ c && c ≤ 'z') || ('0' ≤ c && c ≤ '9')

/-- `.replace(/[^a-z0-9]+/g, "-")`: each maximal run of excluded
characters becomes a single dash.  The flag records whether the previous
character was inside such a run. -/
def collapseNonAlnum : List Char → Bool → List Char
  | [], _ => []
  | c :: rest, inRun =>
    if isSlugKeep c then c :: collapseNonAlnum rest false
    else if inRun then collapseNonAlnum rest true
    else '-' :: collapseNonAlnum rest true

/-- `.replace(/^-|-$/g, "")`: one pass over the string removes a single
leading dash and a single trailing dash. -/
def stripEdgeDashes (l : List Char) : List Char :=
  let l1 := match l with
    | '-' :: t => t
    | other => other
  match l1.getLast? with
  | some '-' => l1.dropLast
  | _ => l1

/-- `slugify` from storage.ts: lowercase, collapse non-alphanumeric runs
to dashes, strip edge dashes. -/
def slugify (name : String) : String :=
  ⟨stripEdgeDashes (collapseNonAlnum (name.data.map Char.toLower) false)⟩

/-- The persistence key built by `saveDocs`:
`` `${slugify(repoName)}-${userId.slice(0, 8)}` ``. -/
def saveDocsSlug (userId repoName : String) : String :=
  slugify repoName ++ "-" ++ jsTake userId 8

theorem replaceFirstChars_first_occurrence (pat l1 l2 : List Char)
    (h : ∀ i, i < l1.length →
      (pat.isPrefixOf (List.drop i (l1 ++ (pat ++ l2)))) = false) :
    replaceFirstChars pat (l1 ++ (pat ++ l2)) = l1 ++ l2 := by
  induction l1 with
  | nil =>
    simp only [List.nil_append]
    cases pat with
    | nil => cases l2 <;> simp [replaceFirstChars, List.isPrefixOf]
    | cons pc pt =>
      rw [List.cons_append]
      simp only [replaceFirstChars]
      split
      · simp [List.drop_succ_cons, List.drop_left]
      · rename_i hnp
        exfalso
        apply hnp
        rw [List.isPrefixOf_iff_prefix]
        exact ⟨l2, by simp⟩
  | cons c t ih =>
    have h0 : (pat.isPrefixOf (c :: (t ++ (pat ++ l2)))) = false := by
      have h2 := h 0 (by simp)
      simpa using h2
    have hshift : ∀ i, i < t.length →
        (pat.isPrefixOf (List.drop i (t ++ (pat ++ l2)))) = false := by
      intro i hi
      have h2 := h (i + 1) (by simpa using Nat.succ_lt_succ hi)
      simpa using h2
    rw [List.cons_append]
    simp only [replaceFirstChars]
    split
    · rename_i hp
      exact absurd hp (by simp [h0])
    · rw [List.cons_append, ih hshift]

/-- Claim C9: the `repoName` bound to a relay invocation is the segment
of `repo_url` after the last `/` with the first occurrence of `.git`
removed — anywhere in the segment, not only as a suffix — defaulting to
`"unknown"` when `repo_url` is absent or the derivation yields the empty
string; and the persistence slug is `slugify(repoName)` + `-` + the
first 8 characters of `userId`, a deterministic function of the pair. -/
theorem repo_name_slug_derivation (a b : String) (l1 l2 : List Char)
    (uid name : String) :
    deriveRepoName none = "unknown"
    ∧ ('/' ∉ b.data →
      deriveRepoName (some (a ++ "/" ++ b)) =
        (if jsReplaceFirst b ".git" == "" then "unknown" else jsReplaceFirst b ".git"))
    ∧ ((∀ i, i < l1.length →
        ((".git".data).isPrefixOf (List.drop i (l1 ++ (".git".data ++ l2)))) = false) →
      replaceFirstChars ".git".data (l1 ++ (".git".data ++ l2)) = l1 ++ l2)
    ∧ deriveRepoName (some "https://h/x.github") = "xhub"
    ∧ deriveRepoName (some "x/.git") = "unknown"
    ∧ saveDocsSlug uid name = slugify name ++ "-" ++ jsTake uid 8 := by
  refine ⟨rfl, fun hb => ?_, fun h => replaceFirstChars_first_occurrence _ l1 l2 h,
    by decide, by decide, rfl⟩
  have hdata : (a ++ "/" ++ b).data = a.data ++ '/' :: b.data := by
    rw [String.data_append, String.data_append]
    simp [List.append_assoc]
  simp only [deriveRepoName, hdata, splitOnChar_getLastD_after_sep '/' a.data hb]

theorem repo_name_slug_derivation_witness :
    deriveRepoName (some ("https://host/owner" ++ "/" ++ "proj.gity")) =
      (if jsReplaceFirst "proj.gity" ".git" == "" then "unknown"
        else jsReplaceFirst "proj.gity" ".git")
    ∧ replaceFirstChars ".git".data ("ab".data ++ (".git".data ++ "hub".data)) =
      "ab".data ++ "hub".data := by
  have h := repo_name_slug_derivation "https://host/owner" "proj.gity"
    "ab".data "hub".data "user1234" "proj"
  exact ⟨h.2.1 (by decide), h.2.2.1 (by decide)⟩

end BetterDocs
